import Mathlib

/-!
Shallow embedding of the webglee rendering-batch and glyph-atlas subsystem
(src/draw/batch.rs and src/draw/text/font.rs), with theorems settling the
specification claims about it.

Scalars (Rust `f32`) are modelled as rationals; machine indices (Rust `u32`
element indices, `usize` lengths) as naturals, with an explicit `% 2 ^ 32`
where the source performs an `as u32` cast.
-/

namespace Webglee

/-- Geometry mode of a batch (golem's `GeometryMode`); the source uses only
`Triangles` and `Lines`. -/
inductive GeometryMode where
  | Triangles
  | Lines
deriving DecidableEq, Repr

/-- A 2D point (nalgebra `Point2<f32>`); also used for `Vector2<f32>`. -/
structure Point2 where
  x : ℚ
  y : ℚ
deriving DecidableEq, Repr

/-- A 3D point (nalgebra `Point3<f32>`). -/
structure Point3 where
  x : ℚ
  y : ℚ
  z : ℚ
deriving DecidableEq, Repr

/-- Modelled from the spec: the crate's `Color` type is not under src/.
Per the spec's data model a color contributes four scalar channels (RGBA)
to a flattened vertex. -/
structure Color where
  r : ℚ
  g : ℚ
  b : ℚ
  a : ℚ
deriving DecidableEq, Repr

/-- Modelled from the spec: `Quad` ("four corner points in a common plane
plus a depth value ... stored as an ordered 4-tuple of corners"); the
definition is not under src/. The Rust array `[Point2; 4]` is modelled as a
list, with `corners.length = 4` stated as a hypothesis where a claim needs
it. -/
structure Quad where
  corners : List Point2
  z : ℚ
deriving DecidableEq, Repr

/-- Modelled from the spec: the `Vertex` capability ("serialize self to a
flat numeric buffer"); the trait definition is not under src/. `stride` is
the number of scalars one vertex appends. -/
class Vertex (V : Type) where
  append : V → List ℚ → List ℚ
  stride : ℕ

/-- `ColorVertex`: position + color (used by `Batch::<ColorVertex>::push_quad`
in src/draw/batch.rs). -/
structure ColorVertex where
  world_pos : Point3
  color : Color
deriving DecidableEq, Repr

/-- Modelled from the spec: `ColorVertex`'s `Vertex` impl is not under src/;
per the spec it appends its numeric fields (position, then color) flat, so
a `ColorVertex` contributes 7 scalars. -/
instance : Vertex ColorVertex where
  append v out :=
    out ++ [v.world_pos.x, v.world_pos.y, v.world_pos.z,
            v.color.r, v.color.g, v.color.b, v.color.a]
  stride := 7

/-- The GPU buffer pair (`Buffers<V>` in src/draw/batch.rs): last-uploaded
vertex data, last-uploaded element data, and `num_elements`. `upload_count`
is the spec's test-observable upload counter: it counts dirty flushes (each
of which performs the `set_data` uploads of both buffers). -/
structure Buffers where
  vertices : List ℚ
  elements : List ℕ
  num_elements : ℕ
  upload_count : ℕ
deriving DecidableEq, Repr

/-- A fresh buffer pair (`Buffers::new`; GPU-side allocation failure is an
external golem error and is not modelled). -/
def Buffers.mkNew : Buffers :=
  { vertices := [], elements := [], num_elements := 0, upload_count := 0 }

/-- `Batch<V>` from src/draw/batch.rs: CPU-side flattened vertex scalars,
element indices, the buffer pair, and the dirty flag. -/
structure Batch (V : Type) where
  geometry_mode : GeometryMode
  vertices : List ℚ
  elements : List ℕ
  buffers : Buffers
  is_dirty : Bool
deriving DecidableEq, Repr

/-- `Batch::new` (GPU buffer creation failure is external and not modelled). -/
def Batch.mkNew (V : Type) (mode : GeometryMode) : Batch V :=
  { geometry_mode := mode, vertices := [], elements := [],
    buffers := Buffers.mkNew, is_dirty := false }

/-- `Batch::new_triangles`. -/
def Batch.new_triangles (V : Type) : Batch V :=
  Batch.mkNew V GeometryMode.Triangles

/-- `Batch::new_lines`: the source passes `GeometryMode::Triangles` here as
well. -/
def Batch.new_lines (V : Type) : Batch V :=
  Batch.mkNew V GeometryMode.Triangles

/-- `Batch::num_vertices` (length of the flattened scalar array). -/
def Batch.num_vertices {V : Type} (b : Batch V) : ℕ :=
  b.vertices.length

/-- `Batch::num_elements`. -/
def Batch.num_elements {V : Type} (b : Batch V) : ℕ :=
  b.elements.length

/-- The vertex count in the sense of the spec's invariant:
`len(vertices) / stride(V)`. -/
def Batch.vertexCount {V : Type} [Vertex V] (b : Batch V) : ℕ :=
  b.vertices.length / Vertex.stride V

/-- `Batch::clear`: the source clears `self.elements` twice and sets the
dirty flag; `vertices` is untouched. -/
def Batch.clear {V : Type} (b : Batch V) : Batch V :=
  { b with elements := [], is_dirty := true }

/-- `Batch::push_element`. -/
def Batch.push_element {V : Type} (b : Batch V) (element : ℕ) : Batch V :=
  { b with elements := b.elements ++ [element], is_dirty := true }

/-- `Batch::push_vertex`. -/
def Batch.push_vertex {V : Type} [Vertex V] (b : Batch V) (v : V) : Batch V :=
  { b with vertices := Vertex.append v b.vertices, is_dirty := true }

/-- `Batch::flush`: if dirty, upload both arrays, mirror the element count
into the pair, clear the flag (counting one upload event); otherwise do
nothing. -/
def Batch.flush {V : Type} (b : Batch V) : Batch V :=
  if b.is_dirty then
    { b with
        buffers :=
          { vertices := b.vertices, elements := b.elements,
            num_elements := b.elements.length,
            upload_count := b.buffers.upload_count + 1 },
        is_dirty := false }
  else
    b

/-- `Batch::<ColorVertex>::push_quad`: asserts the triangles mode (`none`
models the `assert!` panic), pushes one `ColorVertex` per corner in stored
order, then extends `elements` with the six indices based at
`first_idx = self.num_elements() as u32`. -/
def Batch.push_quad (b : Batch ColorVertex) (quad : Quad) (color : Color) :
    Option (Batch ColorVertex) :=
  if b.geometry_mode = GeometryMode.Triangles then
    let first_idx := b.num_elements % 2 ^ 32
    let b1 := quad.corners.foldl
      (fun acc corner =>
        acc.push_vertex
          { world_pos := { x := corner.x, y := corner.y, z := quad.z },
            color := color })
      b
    some { b1 with
             elements := b1.elements ++
               [first_idx + 0, first_idx + 1, first_idx + 2,
                first_idx + 2, first_idx + 3, first_idx + 0] }
  else
    none

/-- The flattened scalars one `push_quad` corner contributes. -/
def cornerScalars (quad : Quad) (color : Color) (corner : Point2) : List ℚ :=
  [corner.x, corner.y, quad.z, color.r, color.g, color.b, color.a]

/-- The unit quad used by concrete checks (the spec's end-to-end scenario). -/
def quadUnit : Quad :=
  { corners := [⟨0, 0⟩, ⟨1, 0⟩, ⟨1, 1⟩, ⟨0, 1⟩], z := 0 }

/-- Opaque white, the concrete color used by concrete checks. -/
def colorWhite : Color :=
  { r := 1, g := 1, b := 1, a := 1 }

/-- fontdue's `GlyphRasterConfig` (external collaborator): the raster key of
one glyph bitmap — glyph index, pixel size, font identity. -/
structure GlyphRasterConfig where
  glyph_index : ℕ
  px : ℚ
  font_hash : ℕ
deriving DecidableEq, Repr

/-- fontdue's `GlyphPosition` (external collaborator): one laid-out glyph —
its raster key, position and pixel dimensions. -/
structure GlyphPosition where
  key : GlyphRasterConfig
  x : ℚ
  y : ℚ
  width : ℕ
  height : ℕ
deriving DecidableEq, Repr

/-- Modelled from the spec: `AaRect` (a crate type not under src/), here a
UV rectangle — normalized offset and size within the atlas texture. -/
structure AaRect where
  pos : Point2
  size : Point2
deriving DecidableEq, Repr

/-- fontdue's `LayoutSettings`, restricted to the fields the source sets:
start x, start y, wrap width. -/
structure LayoutSettings where
  x : ℚ
  y : ℚ
  max_width : Option ℚ
deriving DecidableEq, Repr

/-- Modelled from the spec: `ShelfPacker` (src/draw/text/packer.rs is not
under src/) — a fixed-size atlas with shelf allocation state. The pixel
writes into the backing texture are an external GPU effect and are not
modelled. -/
structure ShelfPacker where
  width : ℕ
  height : ℕ
  shelf_x : ℕ
  shelf_y : ℕ
  shelf_height : ℕ
deriving DecidableEq, Repr

/-- Modelled from the spec: a fresh empty packer of the given fixed size. -/
def ShelfPacker.mkNew (width height : ℕ) : ShelfPacker :=
  { width := width, height := height, shelf_x := 0, shelf_y := 0,
    shelf_height := 0 }

/-- Modelled from the spec: the UV rectangle of an allocated region, offsets
normalized by the atlas dimensions. -/
def uvRect (x y w h aw ah : ℕ) : AaRect :=
  { pos := ⟨(x : ℚ) / aw, (y : ℚ) / ah⟩,
    size := ⟨(w : ℚ) / aw, (h : ℚ) / ah⟩ }

/-- Modelled from the spec: `ShelfPacker::insert` — place the rectangle in
the current shelf if it fits in the remaining width, otherwise start a new
shelf below; `none` models `AtlasFullError` (the rectangle is wider than the
atlas, or the placement would exceed the atlas height). -/
def ShelfPacker.insert (p : ShelfPacker) (pixels : List ℕ) (w h : ℕ) :
    Option (ShelfPacker × AaRect) :=
  if p.width < w then none
  else if p.shelf_x + w ≤ p.width ∧ p.shelf_y + h ≤ p.height then
    some ({ p with shelf_x := p.shelf_x + w,
                   shelf_height := max p.shelf_height h },
          uvRect p.shelf_x p.shelf_y w h p.width p.height)
  else if p.shelf_y + p.shelf_height + h ≤ p.height then
    some ({ p with shelf_y := p.shelf_y + p.shelf_height, shelf_x := w,
                   shelf_height := h },
          uvRect 0 (p.shelf_y + p.shelf_height) w h p.width p.height)
  else none

/-- `ATLAS_WIDTH` from src/draw/text/font.rs. -/
def ATLAS_WIDTH : ℕ := 512

/-- `ATLAS_HEIGHT` from src/draw/text/font.rs. -/
def ATLAS_HEIGHT : ℕ := 256

/-- The external fontdue capabilities the `Font` composes, as abstract
functions: `rasterize` maps (glyph index, size) to (width, height, alpha
bitmap) — `rasterize_indexed` in the source — and `layoutAt` maps (settings,
text, size) to the laid-out glyph positions, standing for
`Layout::reset` + `Layout::append` + `Layout::glyphs`. -/
structure FontData where
  rasterize : ℕ → ℚ → ℕ × ℕ × List ℕ
  layoutAt : LayoutSettings → String → ℚ → List GlyphPosition

/-- The glyph cache `HashMap<GlyphRasterConfig, Glyph>` of font.rs, where a
cached `Glyph` is just its UV rectangle; modelled as an association list
that is only ever consulted through `cacheLookup` and extended at the
back. -/
abbrev GlyphCache : Type := List (GlyphRasterConfig × AaRect)

/-- Lookup in the glyph cache (`HashMap::entry`'s read side). -/
def cacheLookup : GlyphCache → GlyphRasterConfig → Option AaRect
  | [], _ => none
  | (k, v) :: rest, key => if k = key then some v else cacheLookup rest key

/-- `Font` from src/draw/text/font.rs: the fontdue engine, the glyph cache,
the shelf packer and the scratch bitmap buffer. The shader pass is an
external GPU object and is not modelled. -/
structure Font where
  font : FontData
  cache : GlyphCache
  packer : ShelfPacker
  bitmap_buffer : List ℕ

/-- `Font::alpha_to_rgba`: clear the scratch buffer and replicate each alpha
byte into all four channels. -/
def alpha_to_rgba (bitmap : List ℕ) : List ℕ :=
  bitmap.flatMap (fun v => [v, v, v, v])

/-- Modelled from the spec: `TriBatch::<TexColVertex>::push_quad` is not
under src/; the text batch is modelled as the list of quads pushed into it,
each record holding the arguments of one `push_quad` call in `Font::write`
(the axis-aligned quad's center and size, the depth, the UV rectangle, the
color). -/
structure TexQuadEmit where
  center : Point2
  size : Point2
  z : ℚ
  uv_rect : AaRect
  color : Color
deriving DecidableEq, Repr

/-- The caller-owned `TextBatch` as seen by `Font::write`: the sequence of
quads pushed so far. -/
abbrev TextBatch : Type := List TexQuadEmit

/-- The quad `Font::write` pushes for one glyph: centered on the glyph box,
sized to it, at the write position's depth, with the cached UV rectangle. -/
def emitQuad (pos : Point3) (color : Color) (gp : GlyphPosition)
    (uv : AaRect) : TexQuadEmit :=
  { center := ⟨gp.x + (gp.width : ℚ) / 2, gp.y + (gp.height : ℚ) / 2⟩,
    size := ⟨(gp.width : ℚ), (gp.height : ℚ)⟩,
    z := pos.z, uv_rect := uv, color := color }

/-- The `last_end_offset` `Font::write` records for one glyph: offset from
the write position to the glyph box center. -/
def endOffset (pos : Point3) (gp : GlyphPosition) : Point2 :=
  ⟨gp.x + (gp.width : ℚ) / 2 - pos.x, gp.y + (gp.height : ℚ) / 2 - pos.y⟩

/-- The running state of one `Font::write` call: the font, the caller's
batch, the `last_end_offset` local, and `trace`, the log of raster keys
that were rasterized-and-packed in this call (one entry per cache miss;
this is the spec's test-observable rasterize+pack counter). -/
structure WriteState where
  font : Font
  batch : TextBatch
  last_end_offset : Point2
  trace : List GlyphRasterConfig

/-- One iteration of the glyph loop in `Font::write`: skip empty glyphs;
otherwise `cache.entry(key).or_insert_with(rasterize and pack)` and push one
textured quad; `none` models the process-aborting `unwrap` on a failed
atlas insert. -/
def writeStep (size : ℚ) (pos : Point3) (color : Color) (st : WriteState)
    (gp : GlyphPosition) : Option WriteState :=
  if gp.width = 0 ∨ gp.height = 0 then
    some st
  else
    match cacheLookup st.font.cache gp.key with
    | some uv =>
        some { st with batch := st.batch ++ [emitQuad pos color gp uv],
                       last_end_offset := endOffset pos gp }
    | none =>
        match st.font.packer.insert
            (alpha_to_rgba (st.font.font.rasterize gp.key.glyph_index size).2.2)
            (st.font.font.rasterize gp.key.glyph_index size).1
            (st.font.font.rasterize gp.key.glyph_index size).2.1 with
        | none => none
        | some (p2, uv) =>
            some { font := { st.font with
                              cache := st.font.cache ++ [(gp.key, uv)],
                              packer := p2,
                              bitmap_buffer := alpha_to_rgba
                                (st.font.font.rasterize gp.key.glyph_index
                                  size).2.2 },
                   batch := st.batch ++ [emitQuad pos color gp uv],
                   last_end_offset := endOffset pos gp,
                   trace := st.trace ++ [gp.key] }

/-- The glyph loop of `Font::write` over the laid-out glyphs. -/
def writeGlyphs (size : ℚ) (pos : Point3) (color : Color) :
    WriteState → List GlyphPosition → Option WriteState
  | st, [] => some st
  | st, gp :: rest =>
      match writeStep size pos color st gp with
      | none => none
      | some st2 => writeGlyphs size pos color st2 rest

/-- `Font::write`: lay the text out at the given position with no wrap
width, then run the glyph loop. `none` models the `unwrap` crash; on
success the Rust return value is the final `last_end_offset` and the
caller's batch is the final `batch` field. -/
def Font.write (f : Font) (size : ℚ) (pos : Point3) (color : Color)
    (text : String) (batch : TextBatch) : Option WriteState :=
  writeGlyphs size pos color
    { font := f, batch := batch, last_end_offset := ⟨0, 0⟩, trace := [] }
    (f.font.layoutAt { x := pos.x, y := pos.y, max_width := none } text size)

/-- `Font::text_size`: lay out from origin (0,0) with no wrap width and
return `(x + width, y + height)` of the last laid-out glyph, or zero when
there is none. -/
def Font.text_size (f : Font) (size : ℚ) (text : String) : Point2 :=
  match (f.font.layoutAt { x := 0, y := 0, max_width := none } text
      size).getLast? with
  | none => ⟨0, 0⟩
  | some g => ⟨g.x + (g.width : ℚ), g.y + (g.height : ℚ)⟩

/-- One `Font::write` call's inputs, for stating properties of a whole
font lifetime. -/
structure WriteCall where
  size : ℚ
  pos : Point3
  color : Color
  text : String

/-- A sequence of `Font::write` calls threading the font and one caller
batch, concatenating the per-call rasterize-and-pack traces; `none` if any
call crashes. -/
def runWrites : Font → TextBatch → List WriteCall →
    Option (Font × TextBatch × List GlyphRasterConfig)
  | f, batch, [] => some (f, batch, [])
  | f, batch, c :: rest =>
      match Font.write f c.size c.pos c.color c.text batch with
      | none => none
      | some st =>
          match runWrites st.font st.batch rest with
          | none => none
          | some (f2, b2, tr) => some (f2, b2, st.trace ++ tr)

/-- A concrete raster key for witnesses. -/
def keyA : GlyphRasterConfig := { glyph_index := 0, px := 16, font_hash := 0 }

/-- A concrete non-empty laid-out glyph. -/
def glyphA : GlyphPosition := { key := keyA, x := 0, y := 0, width := 1, height := 1 }

/-- A concrete fontdue engine: every glyph rasterizes to a 1x1 bitmap, every
layout yields the single glyph `glyphA`. -/
def fontDataA : FontData :=
  { rasterize := fun _ _ => (1, 1, [255]),
    layoutAt := fun _ _ _ => [glyphA] }

/-- A concrete font with an empty cache and a fresh atlas-sized packer. -/
def fontA : Font :=
  { font := fontDataA, cache := [],
    packer := ShelfPacker.mkNew ATLAS_WIDTH ATLAS_HEIGHT, bitmap_buffer := [] }

/-- The UV rectangle the packer hands out for the first 1x1 insert. -/
def uvA : AaRect := uvRect 0 0 1 1 512 256

/-- `fontA` after one write of `glyphA`: key cached, shelf cursor advanced,
scratch buffer holding the expanded RGBA bitmap. -/
def fontA2 : Font :=
  { font := fontDataA, cache := [(keyA, uvA)],
    packer := { width := 512, height := 256, shelf_x := 1, shelf_y := 0,
                shelf_height := 1 },
    bitmap_buffer := [255, 255, 255, 255] }

/-- A concrete write position. -/
def posA : Point3 := ⟨0, 0, 0⟩

/-- A concrete write call against `fontDataA`. -/
def callA : WriteCall := { size := 16, pos := posA, color := colorWhite, text := "a" }

/-- The result of `runWrites fontA2 [] [callA]`: a pure cache hit — no new
rasterization (empty trace), one quad emitted. -/
def outA3 : Font × TextBatch × List GlyphRasterConfig :=
  (fontA2, [emitQuad posA colorWhite glyphA uvA], [])

/-- A write state over `fontA2` (cache hit scenario). -/
def stA : WriteState :=
  { font := fontA2, batch := [], last_end_offset := ⟨0, 0⟩, trace := [] }

/-- A write state over `fontA` (cache miss scenario). -/
def stB : WriteState :=
  { font := fontA, batch := [], last_end_offset := ⟨0, 0⟩, trace := [] }

/-- The state after the miss step from `stB` on `glyphA`. -/
def stB2 : WriteState :=
  { font := fontA2, batch := [emitQuad posA colorWhite glyphA uvA],
    last_end_offset := endOffset posA glyphA, trace := [keyA] }

/-- The running invariant of the glyph loop: the rasterize-and-pack log has
no duplicates and every logged key is now cached. -/
def CacheInv (st : WriteState) : Prop :=
  st.trace.Nodup ∧
  ∀ k ∈ st.trace, (cacheLookup st.font.cache k).isSome = true

/-- A concrete raster key for the atlas-full scenario. -/
def keyW : GlyphRasterConfig := { glyph_index := 2, px := 16, font_hash := 0 }

/-- A laid-out glyph wider (3) than the tiny 2x2 packer below. -/
def glyphWide : GlyphPosition :=
  { key := keyW, x := 0, y := 0, width := 3, height := 1 }

/-- A font whose packer is a full (too small) 2x2 atlas: its next insert of
a 3-wide glyph fails. -/
def fontFull : Font :=
  { font := { rasterize := fun _ _ => (3, 1, [1, 2, 3]),
              layoutAt := fun _ _ _ => [glyphWide] },
    cache := [], packer := ShelfPacker.mkNew 2 2, bitmap_buffer := [] }

/-- A write state over `fontFull`. -/
def stF : WriteState :=
  { font := fontFull, batch := [], last_end_offset := ⟨0, 0⟩, trace := [] }

/-- The raster key of the zero-width (space) glyph. -/
def keySpace : GlyphRasterConfig := { glyph_index := 3, px := 16, font_hash := 0 }

/-- A zero-width laid-out glyph, as a space produces. -/
def glyphSpace : GlyphPosition :=
  { key := keySpace, x := 1, y := 0, width := 0, height := 1 }

/-- The raster key of the second non-space glyph. -/
def keyB : GlyphRasterConfig := { glyph_index := 4, px := 16, font_hash := 0 }

/-- The second non-empty laid-out glyph of the "a b" scenario. -/
def glyphB : GlyphPosition :=
  { key := keyB, x := 2, y := 0, width := 1, height := 1 }

/-- A font whose layout of any text is the "a b" shape: glyph, zero-width
space, glyph. -/
def fontAB : Font :=
  { font := { rasterize := fun _ _ => (1, 1, [7]),
              layoutAt := fun _ _ _ => [glyphA, glyphSpace, glyphB] },
    cache := [], packer := ShelfPacker.mkNew ATLAS_WIDTH ATLAS_HEIGHT,
    bitmap_buffer := [] }

/-- The UV rectangle of the second 1x1 insert (next shelf slot). -/
def uvB : AaRect := uvRect 1 0 1 1 512 256

/-- The final state of writing "a b" through `fontAB`: two quads, two cached
keys, the space contributed nothing. -/
def stAB : WriteState :=
  { font := { font := fontAB.font,
              cache := [(keyA, uvA), (keyB, uvB)],
              packer := { width := 512, height := 256, shelf_x := 2,
                          shelf_y := 0, shelf_height := 1 },
              bitmap_buffer := [7, 7, 7, 7] },
    batch := [emitQuad posA colorWhite glyphA uvA,
              emitQuad posA colorWhite glyphB uvB],
    last_end_offset := endOffset posA glyphB,
    trace := [keyA, keyB] }

/-- A font laying out nothing at all. -/
def fontE : Font :=
  { font := { rasterize := fun _ _ => (0, 0, []), layoutAt := fun _ _ _ => [] },
    cache := [], packer := ShelfPacker.mkNew ATLAS_WIDTH ATLAS_HEIGHT,
    bitmap_buffer := [] }

/-- A tall first glyph whose extent exceeds the last glyph's. -/
def glyphTall : GlyphPosition :=
  { key := keyA, x := 0, y := 0, width := 5, height := 5 }

/-- A small last glyph. -/
def glyphLast : GlyphPosition :=
  { key := keyB, x := 3, y := 0, width := 1, height := 1 }

/-- A font laying any text out as [glyphTall, glyphLast]: the last-glyph
extent (4,1) differs from the true bounding extent (5,5). -/
def fontC : Font :=
  { font := { rasterize := fun _ _ => (1, 1, [255]),
              layoutAt := fun _ _ _ => [glyphTall, glyphLast] },
    cache := [], packer := ShelfPacker.mkNew ATLAS_WIDTH ATLAS_HEIGHT,
    bitmap_buffer := [] }

/-- Maximum of two rationals by explicit comparison (kept executable for
concrete evaluation). -/
def qmax (a b : ℚ) : ℚ := if a < b then b else a

/-- Modelled from the spec's words only: the true bounding extent over ALL
laid-out glyphs — the maximum of `x + width` and of `y + height` over every
glyph. See `boundingExtentAllGlyphs` use in the C9 theorem. -/
def boundingExtentAllGlyphs (glyphs : List GlyphPosition) : Point2 :=
  ⟨(glyphs.map (fun g => g.x + (g.width : ℚ))).foldr qmax 0,
   (glyphs.map (fun g => g.y + (g.height : ℚ))).foldr qmax 0⟩

theorem foldl_push_vertex_vertices (quad : Quad) (color : Color)
    (corners : List Point2) (b : Batch ColorVertex) :
    (corners.foldl
      (fun acc corner =>
        acc.push_vertex
          { world_pos := { x := corner.x, y := corner.y, z := quad.z },
            color := color })
      b).vertices
      = b.vertices ++ corners.flatMap (cornerScalars quad color) := by
  induction corners generalizing b with
  | nil => simp
  | cons c rest ih =>
      simp only [List.foldl_cons, List.flatMap_cons, ih]
      simp [Batch.push_vertex, Vertex.append, cornerScalars, List.append_assoc]

theorem foldl_push_vertex_elements (quad : Quad) (color : Color)
    (corners : List Point2) (b : Batch ColorVertex) :
    (corners.foldl
      (fun acc corner =>
        acc.push_vertex
          { world_pos := { x := corner.x, y := corner.y, z := quad.z },
            color := color })
      b).elements = b.elements := by
  induction corners generalizing b with
  | nil => rfl
  | cons c rest ih => rw [List.foldl_cons, ih]; rfl

theorem length_flatMap_cornerScalars (quad : Quad) (color : Color)
    (corners : List Point2) :
    (corners.flatMap (cornerScalars quad color)).length = 7 * corners.length := by
  induction corners with
  | nil => rfl
  | cons c rest ih =>
      simp only [List.flatMap_cons, List.length_append, ih, cornerScalars,
        List.length_cons, List.length_nil]
      omega

/-- C1: refuted as stated. `push_quad` bases the six appended elements at
`self.num_elements()` — the element count — not at the vertex count. On a
Triangles batch already holding one quad (vertex count 4, element count 6),
a second `push_quad` appends elements `[6,7,8,8,9,6]`, whereas the claim
requires `[4,5,6,6,7,4]`. This theorem evaluates the code at that failing
input. -/
theorem push_quad_bases_elements_at_element_count :
    (((Batch.new_triangles ColorVertex).push_quad quadUnit colorWhite).map
        (fun b => (b.vertexCount, b.num_elements)) = some (4, 6)) ∧
    ((((Batch.new_triangles ColorVertex).push_quad quadUnit colorWhite).bind
        (fun b => b.push_quad quadUnit colorWhite)).map
        (fun b => b.elements.drop 6) = some [6, 7, 8, 8, 9, 6]) ∧
    [6, 7, 8, 8, 9, 6] ≠ [4, 5, 6, 6, 7, 4] := by
  decide

/-- C2: refuted as stated. After two consecutive `push_quad` calls on a
fresh Triangles batch the vertex count is 8 but `elements` contains the
values 8 and 9, so the invariant "every element value is strictly below the
vertex count" fails. This theorem evaluates the code at that failing
input. -/
theorem elements_invariant_fails_after_two_quads :
    ((((Batch.new_triangles ColorVertex).push_quad quadUnit colorWhite).bind
        (fun b => b.push_quad quadUnit colorWhite)).map
        (fun b => (b.elements, b.vertexCount))
      = some ([0, 1, 2, 2, 3, 0, 6, 7, 8, 8, 9, 6], 8)) ∧
    ¬ (∀ e ∈ [0, 1, 2, 2, 3, 0, 6, 7, 8, 8, 9, 6], e < 8) := by
  decide

/-- C3: on a freshly constructed (empty) Triangles `Batch<ColorVertex>`,
`push_quad` succeeds and leaves exactly 4 pushed vertices and elements
exactly `[0,1,2,2,3,0]`. -/
theorem push_quad_on_empty_batch (quad : Quad) (color : Color)
    (h : quad.corners.length = 4) :
    ((Batch.new_triangles ColorVertex).push_quad quad color).map
        (fun b => (b.vertexCount, b.elements)) = some (4, [0, 1, 2, 2, 3, 0]) := by
  rw [Batch.push_quad,
    if_pos (show (Batch.new_triangles ColorVertex).geometry_mode
      = GeometryMode.Triangles from rfl)]
  dsimp only
  rw [foldl_push_vertex_vertices, foldl_push_vertex_elements]
  simp only [Option.map_some', Option.some.injEq, Prod.mk.injEq, Batch.vertexCount,
    Batch.new_triangles, Batch.mkNew, Buffers.mkNew, Batch.num_elements,
    List.nil_append]
  rw [length_flatMap_cornerScalars, h]
  decide

/-- Witness for C3 at the concrete unit quad and white color. -/
theorem push_quad_on_empty_batch_witness :
    quadUnit.corners.length = 4 ∧
    ((Batch.new_triangles ColorVertex).push_quad quadUnit colorWhite).map
        (fun b => (b.vertexCount, b.elements)) = some (4, [0, 1, 2, 2, 3, 0]) :=
  ⟨by decide, push_quad_on_empty_batch quadUnit colorWhite (by decide)⟩

/-- C4: `flush` on a dirty batch uploads the full current vertex and element
arrays, mirrors the element count into the pair, clears the dirty flag and
performs exactly one upload event, leaving the CPU arrays untouched; `flush`
on a clean batch changes nothing; hence two consecutive flushes perform
exactly one upload when the batch was dirty and none otherwise. -/
theorem flush_upload_protocol (V : Type) (b : Batch V) :
    (b.is_dirty = true →
      b.flush.buffers.vertices = b.vertices ∧
      b.flush.buffers.elements = b.elements ∧
      b.flush.buffers.num_elements = b.elements.length ∧
      b.flush.is_dirty = false ∧
      b.flush.buffers.upload_count = b.buffers.upload_count + 1 ∧
      b.flush.vertices = b.vertices ∧
      b.flush.elements = b.elements ∧
      b.flush.geometry_mode = b.geometry_mode) ∧
    (b.is_dirty = false → b.flush = b) ∧
    b.flush.flush.buffers.upload_count
      = b.buffers.upload_count + (if b.is_dirty then 1 else 0) := by
  unfold Batch.flush
  rcases hd : b.is_dirty with _ | _ <;> simp [hd]

/-- Witness for C4 at a concrete dirty batch: one element pushed, then two
flushes perform exactly one upload. -/
theorem flush_upload_protocol_witness :
    ((Batch.new_triangles ColorVertex).push_element 0).is_dirty = true ∧
    ((Batch.new_triangles ColorVertex).push_element 0).flush.is_dirty = false ∧
    ((Batch.new_triangles ColorVertex).push_element 0).flush.flush.buffers.upload_count
      = 1 := by
  have h := flush_upload_protocol ColorVertex
    ((Batch.new_triangles ColorVertex).push_element 0)
  refine ⟨rfl, (h.1 rfl).2.2.2.1, ?_⟩
  have h3 := h.2.2
  simpa using h3

/-- C5: `clear` empties the element array, leaves the vertex array exactly
unchanged, sets the dirty flag, and touches no other field (buffer pair and
geometry mode included). -/
theorem clear_empties_only_elements (V : Type) (b : Batch V) :
    b.clear.elements = [] ∧
    b.clear.vertices = b.vertices ∧
    b.clear.is_dirty = true ∧
    b.clear.buffers = b.buffers ∧
    b.clear.geometry_mode = b.geometry_mode :=
  ⟨rfl, rfl, rfl, rfl, rfl⟩

/-- C10: both named convenience constructors produce a Triangles-mode
batch — `new_lines` passes `GeometryMode::Triangles` too — so `push_quad`'s
geometry-mode assertion passes on a batch created with `new_lines`, and no
named convenience constructor yields a Lines-mode batch. -/
theorem new_lines_is_triangles (quad : Quad) (color : Color) :
    (Batch.new_lines ColorVertex).geometry_mode = GeometryMode.Triangles ∧
    (Batch.new_triangles ColorVertex).geometry_mode = GeometryMode.Triangles ∧
    ((Batch.new_lines ColorVertex).push_quad quad color).isSome = true :=
  ⟨rfl, rfl, rfl⟩

theorem cacheLookup_append_of_some (c l : GlyphCache) (k : GlyphRasterConfig)
    (v : AaRect) (h : cacheLookup c k = some v) :
    cacheLookup (c ++ l) k = some v := by
  induction c with
  | nil => exact absurd h (by simp [cacheLookup])
  | cons p rest ih =>
      rw [List.cons_append]
      rw [cacheLookup] at h ⊢
      by_cases hk : p.1 = k
      · simpa [hk] using h
      · rw [if_neg hk] at h ⊢
        exact ih h

theorem cacheLookup_append_self (c : GlyphCache) (k : GlyphRasterConfig)
    (v : AaRect) (h : cacheLookup c k = none) :
    cacheLookup (c ++ [(k, v)]) k = some v := by
  induction c with
  | nil => simp [cacheLookup]
  | cons p rest ih =>
      rw [cacheLookup] at h
      rw [List.cons_append, cacheLookup]
      by_cases hk : p.1 = k
      · rw [if_pos hk] at h
        exact Option.noConfusion h
      · rw [if_neg hk] at h ⊢
        exact ih h

/-- Case analysis of one successful glyph-loop iteration: either the glyph
was empty and the state is unchanged, or a cache hit pushed one quad, or a
cache miss rasterized-and-packed, extended the cache, logged the key and
pushed one quad. -/
theorem writeStep_some_cases {size : ℚ} {pos : Point3} {color : Color}
    {st st2 : WriteState} {gp : GlyphPosition}
    (h : writeStep size pos color st gp = some st2) :
    (st2 = st ∧ (gp.width = 0 ∨ gp.height = 0)) ∨
    (¬(gp.width = 0 ∨ gp.height = 0) ∧
      ((∃ uv, cacheLookup st.font.cache gp.key = some uv ∧
          st2.font = st.font ∧ st2.trace = st.trace ∧
          st2.batch = st.batch ++ [emitQuad pos color gp uv]) ∨
       (∃ p2 uv,
          st.font.packer.insert
            (alpha_to_rgba (st.font.font.rasterize gp.key.glyph_index size).2.2)
            (st.font.font.rasterize gp.key.glyph_index size).1
            (st.font.font.rasterize gp.key.glyph_index size).2.1
            = some (p2, uv) ∧
          cacheLookup st.font.cache gp.key = none ∧
          st2.font.cache = st.font.cache ++ [(gp.key, uv)] ∧
          st2.trace = st.trace ++ [gp.key] ∧
          st2.batch = st.batch ++ [emitQuad pos color gp uv]))) := by
  unfold writeStep at h
  split at h
  · left
    exact ⟨(Option.some.inj h).symm, by assumption⟩
  · right
    refine ⟨by assumption, ?_⟩
    split at h
    · left
      obtain rfl := Option.some.inj h
      exact ⟨_, by assumption, rfl, rfl, rfl⟩
    · split at h
      · exact absurd h (by simp)
      · right
        obtain rfl := Option.some.inj h
        exact ⟨_, _, by assumption, by assumption, rfl, rfl, rfl⟩

theorem writeStep_cache_mono {size : ℚ} {pos : Point3} {color : Color}
    {st st2 : WriteState} {gp : GlyphPosition}
    (h : writeStep size pos color st gp = some st2)
    (k : GlyphRasterConfig) (v : AaRect)
    (hk : cacheLookup st.font.cache k = some v) :
    cacheLookup st2.font.cache k = some v := by
  rcases writeStep_some_cases h with
    ⟨rfl, _⟩ | ⟨_, ⟨uv, _, hf, _, _⟩ | ⟨p2, uv, _, _, hc, _, _⟩⟩
  · exact hk
  · rw [hf]; exact hk
  · rw [hc]; exact cacheLookup_append_of_some _ _ _ _ hk

theorem writeStep_not_traced {size : ℚ} {pos : Point3} {color : Color}
    {st st2 : WriteState} {gp : GlyphPosition}
    (h : writeStep size pos color st gp = some st2)
    (k : GlyphRasterConfig) (v : AaRect)
    (hk : cacheLookup st.font.cache k = some v) (hnt : k ∉ st.trace) :
    k ∉ st2.trace := by
  rcases writeStep_some_cases h with
    ⟨rfl, _⟩ | ⟨_, ⟨uv, _, _, ht, _⟩ | ⟨p2, uv, _, hnone, _, ht, _⟩⟩
  · exact hnt
  · rw [ht]; exact hnt
  · rw [ht]
    intro hmem
    rcases List.mem_append.mp hmem with hmem | hmem
    · exact hnt hmem
    · have : k = gp.key := by simpa using hmem
      rw [this, hnone] at hk
      exact Option.noConfusion hk

theorem writeStep_inv {size : ℚ} {pos : Point3} {color : Color}
    {st st2 : WriteState} {gp : GlyphPosition}
    (h : writeStep size pos color st gp = some st2) (hinv : CacheInv st) :
    CacheInv st2 := by
  obtain ⟨hnd, hcached⟩ := hinv
  rcases writeStep_some_cases h with
    ⟨rfl, _⟩ | ⟨_, ⟨uv, _, hf, ht, _⟩ | ⟨p2, uv, _, hnone, hc, ht, _⟩⟩
  · exact ⟨hnd, hcached⟩
  · rw [CacheInv, hf, ht]
    exact ⟨hnd, hcached⟩
  · rw [CacheInv, hc, ht]
    constructor
    · rw [List.nodup_append]
      refine ⟨hnd, List.nodup_singleton _, ?_⟩
      intro a ha hmem
      have hak : a = gp.key := by simpa using hmem
      have := hcached a ha
      rw [hak, hnone] at this
      simp at this
    · intro k hkmem
      rcases List.mem_append.mp hkmem with hkmem | hkmem
      · have := hcached k hkmem
        obtain ⟨v, hv⟩ := Option.isSome_iff_exists.mp this
        rw [cacheLookup_append_of_some _ _ _ _ hv]
        rfl
      · have hak : k = gp.key := by simpa using hkmem
        rw [hak, cacheLookup_append_self _ _ _ hnone]
        rfl

theorem writeGlyphs_cache_mono {size : ℚ} {pos : Point3} {color : Color}
    {glyphs : List GlyphPosition} {st st2 : WriteState}
    (h : writeGlyphs size pos color st glyphs = some st2)
    (k : GlyphRasterConfig) (v : AaRect)
    (hk : cacheLookup st.font.cache k = some v) :
    cacheLookup st2.font.cache k = some v := by
  induction glyphs generalizing st with
  | nil =>
      obtain rfl := Option.some.inj h
      exact hk
  | cons gp rest ih =>
      rw [writeGlyphs] at h
      split at h
      · exact Option.noConfusion h
      · rename_i st1 hstep
        exact ih h (writeStep_cache_mono hstep k v hk)

theorem writeGlyphs_not_traced {size : ℚ} {pos : Point3} {color : Color}
    {glyphs : List GlyphPosition} {st st2 : WriteState}
    (h : writeGlyphs size pos color st glyphs = some st2)
    (k : GlyphRasterConfig) (v : AaRect)
    (hk : cacheLookup st.font.cache k = some v) (hnt : k ∉ st.trace) :
    k ∉ st2.trace := by
  induction glyphs generalizing st with
  | nil =>
      obtain rfl := Option.some.inj h
      exact hnt
  | cons gp rest ih =>
      rw [writeGlyphs] at h
      split at h
      · exact Option.noConfusion h
      · rename_i st1 hstep
        exact ih h (writeStep_cache_mono hstep k v hk)
          (writeStep_not_traced hstep k v hk hnt)

theorem writeGlyphs_inv {size : ℚ} {pos : Point3} {color : Color}
    {glyphs : List GlyphPosition} {st st2 : WriteState}
    (h : writeGlyphs size pos color st glyphs = some st2)
    (hinv : CacheInv st) : CacheInv st2 := by
  induction glyphs generalizing st with
  | nil =>
      obtain rfl := Option.some.inj h
      exact hinv
  | cons gp rest ih =>
      rw [writeGlyphs] at h
      split at h
      · exact Option.noConfusion h
      · rename_i st1 hstep
        exact ih h (writeStep_inv hstep hinv)

theorem runWrites_cache_mono {f : Font} {batch : TextBatch}
    {calls : List WriteCall}
    {out : Font × TextBatch × List GlyphRasterConfig}
    (h : runWrites f batch calls = some out)
    (k : GlyphRasterConfig) (v : AaRect)
    (hk : cacheLookup f.cache k = some v) :
    cacheLookup out.1.cache k = some v := by
  induction calls generalizing f batch out with
  | nil =>
      obtain rfl := Option.some.inj h
      exact hk
  | cons c rest ih =>
      rw [runWrites] at h
      split at h
      · exact Option.noConfusion h
      · rename_i st hw
        split at h
        · exact Option.noConfusion h
        · rename_i f2x b2x trx hrest
          obtain rfl := Option.some.inj h
          show cacheLookup f2x.cache k = some v
          exact ih hrest (writeGlyphs_cache_mono hw k v hk)

theorem runWrites_not_traced {f : Font} {batch : TextBatch}
    {calls : List WriteCall}
    {out : Font × TextBatch × List GlyphRasterConfig}
    (h : runWrites f batch calls = some out)
    (k : GlyphRasterConfig) (v : AaRect)
    (hk : cacheLookup f.cache k = some v) :
    k ∉ out.2.2 := by
  induction calls generalizing f batch out with
  | nil =>
      obtain rfl := Option.some.inj h
      exact List.not_mem_nil k
  | cons c rest ih =>
      rw [runWrites] at h
      split at h
      · exact Option.noConfusion h
      · rename_i st hw
        split at h
        · exact Option.noConfusion h
        · rename_i f2x b2x trx hrest
          obtain rfl := Option.some.inj h
          show k ∉ st.trace ++ trx
          intro hmem
          rcases List.mem_append.mp hmem with hmem | hmem
          · exact writeGlyphs_not_traced hw k v hk (List.not_mem_nil k) hmem
          · exact ih hrest (writeGlyphs_cache_mono hw k v hk) hmem

theorem runWrites_trace_nodup {f : Font} {batch : TextBatch}
    {calls : List WriteCall}
    {out : Font × TextBatch × List GlyphRasterConfig}
    (h : runWrites f batch calls = some out) :
    out.2.2.Nodup ∧ ∀ k ∈ out.2.2, (cacheLookup out.1.cache k).isSome = true := by
  induction calls generalizing f batch out with
  | nil =>
      obtain rfl := Option.some.inj h
      exact ⟨List.nodup_nil, by intro k hk; exact absurd hk (List.not_mem_nil k)⟩
  | cons c rest ih =>
      rw [runWrites] at h
      split at h
      · exact Option.noConfusion h
      · rename_i st hw
        split at h
        · exact Option.noConfusion h
        · rename_i f2x b2x trx hrest
          obtain rfl := Option.some.inj h
          show (st.trace ++ trx).Nodup ∧
            ∀ k ∈ st.trace ++ trx, (cacheLookup f2x.cache k).isSome = true
          have hinv : CacheInv st :=
            writeGlyphs_inv hw
              ⟨List.nodup_nil, by intro k hk; exact absurd hk (List.not_mem_nil k)⟩
          obtain ⟨hnd2, hcached2⟩ := ih hrest
          constructor
          · rw [List.nodup_append]
            refine ⟨hinv.1, hnd2, ?_⟩
            intro a ha
            obtain ⟨v, hv⟩ := Option.isSome_iff_exists.mp (hinv.2 a ha)
            have hnt := runWrites_not_traced hrest a v hv
            exact hnt
          · intro k hkmem
            rcases List.mem_append.mp hkmem with hkmem | hkmem
            · obtain ⟨v, hv⟩ := Option.isSome_iff_exists.mp (hinv.2 k hkmem)
              have hmono := runWrites_cache_mono hrest k v hv
              rw [hmono]
              rfl
            · exact hcached2 k hkmem

theorem writeStep_batch_length {size : ℚ} {pos : Point3} {color : Color}
    {st st2 : WriteState} {gp : GlyphPosition}
    (h : writeStep size pos color st gp = some st2) :
    st2.batch.length
      = st.batch.length + (if gp.width = 0 ∨ gp.height = 0 then 0 else 1) := by
  rcases writeStep_some_cases h with
    ⟨rfl, hemp⟩ | ⟨hne, ⟨uv, _, _, _, hb⟩ | ⟨p2, uv, _, _, _, _, hb⟩⟩
  · rw [if_pos hemp]
    exact (Nat.add_zero _).symm
  · rw [if_neg hne, hb]; simp
  · rw [if_neg hne, hb]; simp

/-- A glyph-loop step aborts (the `unwrap` crash) exactly when it processes
a non-empty cache-miss glyph whose shelf-packer insert fails; there is no
other failure path and no recoverable error value. -/
theorem writeStep_none_iff (size : ℚ) (pos : Point3) (color : Color)
    (st : WriteState) (gp : GlyphPosition) :
    writeStep size pos color st gp = none ↔
      (¬(gp.width = 0 ∨ gp.height = 0) ∧
       cacheLookup st.font.cache gp.key = none ∧
       st.font.packer.insert
         (alpha_to_rgba (st.font.font.rasterize gp.key.glyph_index size).2.2)
         (st.font.font.rasterize gp.key.glyph_index size).1
         (st.font.font.rasterize gp.key.glyph_index size).2.1 = none) := by
  constructor
  · intro h
    unfold writeStep at h
    split at h
    · exact Option.noConfusion h
    · split at h
      · exact Option.noConfusion h
      · split at h
        · exact ⟨by assumption, by assumption, by assumption⟩
        · exact Option.noConfusion h
  · rintro ⟨hne, hnone, hins⟩
    cases hws : writeStep size pos color st gp with
    | none => rfl
    | some st2 =>
        exfalso
        rcases writeStep_some_cases hws with
          ⟨rfl, hemp⟩ | ⟨_, ⟨uv, hsome, _, _, _⟩ | ⟨p2, uv, hins2, _, _, _, _⟩⟩
        · exact hne hemp
        · rw [hnone] at hsome
          exact Option.noConfusion hsome
        · rw [hins] at hins2
          exact Option.noConfusion hins2

/-- C6: glyph-cache reuse. Over any successful sequence of `Font::write`
calls, the concatenated rasterize-and-pack log has no duplicate raster key
and never contains a key that was already cached, and cached entries are
never removed or mutated (first conjunct). A write step on an already
cached non-empty glyph leaves the font — cache, packer, scratch buffer —
completely unchanged and only appends one quad carrying exactly the cached
UV rectangle (second conjunct). The first step to encounter a key performs
the single rasterize-and-pack: it logs the key, caches the packed UV
rectangle and emits a quad carrying it (third conjunct). -/
theorem glyph_cache_rasterizes_once :
    (∀ (f : Font) (batch : TextBatch) (calls : List WriteCall)
        (out : Font × TextBatch × List GlyphRasterConfig),
      runWrites f batch calls = some out →
      out.2.2.Nodup ∧
      (∀ k v, cacheLookup f.cache k = some v →
        k ∉ out.2.2 ∧ cacheLookup out.1.cache k = some v)) ∧
    (∀ (size : ℚ) (pos : Point3) (color : Color) (st : WriteState)
        (gp : GlyphPosition) (uv : AaRect),
      gp.width ≠ 0 → gp.height ≠ 0 →
      cacheLookup st.font.cache gp.key = some uv →
      writeStep size pos color st gp =
        some { st with
                 batch := st.batch ++ [emitQuad pos color gp uv],
                 last_end_offset := endOffset pos gp }) ∧
    (∀ (size : ℚ) (pos : Point3) (color : Color) (st st2 : WriteState)
        (gp : GlyphPosition),
      gp.width ≠ 0 → gp.height ≠ 0 →
      cacheLookup st.font.cache gp.key = none →
      writeStep size pos color st gp = some st2 →
      st2.trace = st.trace ++ [gp.key] ∧
      (cacheLookup st2.font.cache gp.key).isSome = true ∧
      Option.map TexQuadEmit.uv_rect st2.batch.getLast?
        = cacheLookup st2.font.cache gp.key) := by
  refine ⟨?_, ?_, ?_⟩
  · intro f batch calls out h
    exact ⟨(runWrites_trace_nodup h).1,
           fun k v hk =>
             ⟨runWrites_not_traced h k v hk, runWrites_cache_mono h k v hk⟩⟩
  · intro size pos color st gp uv hw hh hcache
    unfold writeStep
    rw [if_neg (by simp [hw, hh]), hcache]
  · intro size pos color st st2 gp hw hh hnone h
    rcases writeStep_some_cases h with
      ⟨rfl, hemp⟩ | ⟨_, ⟨uv, hsome, _, _, _⟩ | ⟨p2, uv, hins, _, hc, ht, hb⟩⟩
    · exact absurd hemp (by simp [hw, hh])
    · rw [hnone] at hsome
      exact Option.noConfusion hsome
    · have hcached : cacheLookup st2.font.cache gp.key = some uv := by
        rw [hc]
        exact cacheLookup_append_self _ _ _ hnone
      refine ⟨ht, by rw [hcached]; rfl, ?_⟩
      rw [hb, hcached, List.getLast?_concat]
      rfl

theorem glyph_cache_rasterizes_once_witness :
    runWrites fontA2 [] [callA] = some outA3 ∧
    outA3.2.2.Nodup ∧
    cacheLookup fontA2.cache keyA = some uvA ∧
    keyA ∉ outA3.2.2 ∧
    cacheLookup outA3.1.cache keyA = some uvA ∧
    glyphA.width ≠ 0 ∧
    glyphA.height ≠ 0 ∧
    writeStep 16 posA colorWhite stA glyphA =
      some { stA with
               batch := stA.batch ++ [emitQuad posA colorWhite glyphA uvA],
               last_end_offset := endOffset posA glyphA } ∧
    cacheLookup stB.font.cache glyphA.key = none ∧
    writeStep 16 posA colorWhite stB glyphA = some stB2 ∧
    stB2.trace = stB.trace ++ [glyphA.key] ∧
    (cacheLookup stB2.font.cache glyphA.key).isSome = true ∧
    Option.map TexQuadEmit.uv_rect stB2.batch.getLast?
      = cacheLookup stB2.font.cache glyphA.key := by
  have h := glyph_cache_rasterizes_once
  have h1 := h.1 fontA2 [] [callA] outA3 rfl
  have h2 := h1.2 keyA uvA rfl
  have h3 := h.2.2 16 posA colorWhite stB stB2 glyphA (by decide) (by decide)
    rfl rfl
  exact ⟨rfl, h1.1, rfl, h2.1, h2.2, by decide, by decide,
         h.2.1 16 posA colorWhite stA glyphA uvA (by decide) (by decide) rfl,
         rfl, rfl, h3.1, h3.2.1, h3.2.2⟩

/-- C7: atlas exhaustion inside `Font::write` is an unconditional crash (the
`unwrap` on the failed insert, modelled as `none`), not a recoverable error
value: a glyph-loop step aborts exactly when it processes a non-empty
cache-miss glyph whose shelf-packer insert fails — there is no
error-returning path — and a write whose laid-out text is such a glyph
crashes. -/
theorem atlas_full_is_crash :
    (∀ (size : ℚ) (pos : Point3) (color : Color) (st : WriteState)
        (gp : GlyphPosition),
      writeStep size pos color st gp = none ↔
        (¬(gp.width = 0 ∨ gp.height = 0) ∧
         cacheLookup st.font.cache gp.key = none ∧
         st.font.packer.insert
           (alpha_to_rgba (st.font.font.rasterize gp.key.glyph_index size).2.2)
           (st.font.font.rasterize gp.key.glyph_index size).1
           (st.font.font.rasterize gp.key.glyph_index size).2.1 = none)) ∧
    (∀ (f : Font) (size : ℚ) (pos : Point3) (color : Color) (text : String)
        (batch : TextBatch) (gp : GlyphPosition),
      f.font.layoutAt { x := pos.x, y := pos.y, max_width := none } text size
        = [gp] →
      gp.width ≠ 0 → gp.height ≠ 0 →
      cacheLookup f.cache gp.key = none →
      f.packer.insert
        (alpha_to_rgba (f.font.rasterize gp.key.glyph_index size).2.2)
        (f.font.rasterize gp.key.glyph_index size).1
        (f.font.rasterize gp.key.glyph_index size).2.1 = none →
      Font.write f size pos color text batch = none) := by
  refine ⟨writeStep_none_iff, ?_⟩
  intro f size pos color text batch gp hlayout hw hh hnone hins
  have hstep : writeStep size pos color
      { font := f, batch := batch, last_end_offset := ⟨0, 0⟩, trace := [] } gp
      = none :=
    (writeStep_none_iff size pos color
      { font := f, batch := batch, last_end_offset := ⟨0, 0⟩, trace := [] } gp).mpr
      ⟨by simp [hw, hh], hnone, hins⟩
  simp only [Font.write, hlayout, writeGlyphs, hstep]

theorem atlas_full_is_crash_witness :
    glyphWide.width ≠ 0 ∧ glyphWide.height ≠ 0 ∧
    cacheLookup fontFull.cache glyphWide.key = none ∧
    fontFull.packer.insert
      (alpha_to_rgba (fontFull.font.rasterize glyphWide.key.glyph_index 16).2.2)
      (fontFull.font.rasterize glyphWide.key.glyph_index 16).1
      (fontFull.font.rasterize glyphWide.key.glyph_index 16).2.1 = none ∧
    writeStep 16 posA colorWhite stF glyphWide = none ∧
    Font.write fontFull 16 posA colorWhite "W" [] = none := by
  have h := atlas_full_is_crash
  refine ⟨by decide, by decide, rfl, rfl, ?_, ?_⟩
  · exact (h.1 16 posA colorWhite stF glyphWide).mpr ⟨by decide, rfl, rfl⟩
  · exact h.2 fontFull 16 posA colorWhite "W" [] glyphWide rfl (by decide)
      (by decide) rfl rfl

/-- C8: a laid-out glyph whose width or height is 0 is skipped entirely —
the write state (font with cache and packer, batch, offset, trace) is
returned unchanged, so it contributes no vertices, elements, rasterization
or atlas insertion — and a write laying out three glyphs whose middle one
has zero width (the "a b" shape) appends exactly two quads to the caller's
batch, not three. -/
theorem empty_glyphs_skipped :
    (∀ (size : ℚ) (pos : Point3) (color : Color) (st : WriteState)
        (gp : GlyphPosition),
      gp.width = 0 ∨ gp.height = 0 →
      writeStep size pos color st gp = some st) ∧
    (∀ (f : Font) (size : ℚ) (pos : Point3) (color : Color) (text : String)
        (batch : TextBatch) (ga gs gb : GlyphPosition) (st2 : WriteState),
      f.font.layoutAt { x := pos.x, y := pos.y, max_width := none } text size
        = [ga, gs, gb] →
      gs.width = 0 ∨ gs.height = 0 →
      ga.width ≠ 0 → ga.height ≠ 0 → gb.width ≠ 0 → gb.height ≠ 0 →
      Font.write f size pos color text batch = some st2 →
      st2.batch.length = batch.length + 2) := by
  constructor
  · intro size pos color st gp hemp
    unfold writeStep
    rw [if_pos hemp]
  · intro f size pos color text batch ga gs gb st2 hlayout hgs haw hah hbw hbh hw
    unfold Font.write at hw
    rw [hlayout, writeGlyphs] at hw
    split at hw
    · exact Option.noConfusion hw
    · rename_i st1 heq1
      rw [writeGlyphs] at hw
      split at hw
      · exact Option.noConfusion hw
      · rename_i st2x heq2
        rw [writeGlyphs] at hw
        split at hw
        · exact Option.noConfusion hw
        · rename_i st3x heq3
          obtain rfl := Option.some.inj hw
          have l1 := writeStep_batch_length heq1
          have l2 := writeStep_batch_length heq2
          have l3 := writeStep_batch_length heq3
          rw [if_neg (by simp [haw, hah])] at l1
          rw [if_pos hgs] at l2
          rw [if_neg (by simp [hbw, hbh])] at l3
          simp only at l1
          omega

theorem empty_glyphs_skipped_witness :
    (glyphSpace.width = 0 ∨ glyphSpace.height = 0) ∧
    writeStep 16 posA colorWhite stB glyphSpace = some stB ∧
    fontAB.font.layoutAt { x := posA.x, y := posA.y, max_width := none }
        "a b" 16 = [glyphA, glyphSpace, glyphB] ∧
    Font.write fontAB 16 posA colorWhite "a b" [] = some stAB ∧
    stAB.batch.length = ([] : TextBatch).length + 2 := by
  have h := empty_glyphs_skipped
  exact ⟨by decide, h.1 16 posA colorWhite stB glyphSpace (by decide), rfl, rfl,
    h.2 fontAB 16 posA colorWhite "a b" [] glyphA glyphSpace glyphB stAB rfl
      (by decide) (by decide) (by decide) (by decide) (by decide) rfl⟩

/-- C9: `text_size` lays the text out from origin (0,0) with no wrap width
and returns `(x + width, y + height)` of the last laid-out glyph only —
zero when the layout is empty — and this is not a bounding box over all
glyphs: there is a font and text where it differs from the true bounding
extent. -/
theorem text_size_uses_last_glyph_only :
    (∀ (f : Font) (size : ℚ) (text : String),
      f.font.layoutAt { x := 0, y := 0, max_width := none } text size = [] →
      f.text_size size text = ⟨0, 0⟩) ∧
    (∀ (f : Font) (size : ℚ) (text : String) (g : GlyphPosition),
      (f.font.layoutAt { x := 0, y := 0, max_width := none } text
          size).getLast? = some g →
      f.text_size size text
        = ⟨g.x + (g.width : ℚ), g.y + (g.height : ℚ)⟩) ∧
    (∃ (f : Font) (size : ℚ) (text : String),
      f.text_size size text
        ≠ boundingExtentAllGlyphs
            (f.font.layoutAt { x := 0, y := 0, max_width := none } text
              size)) := by
  refine ⟨?_, ?_, ?_⟩
  · intro f size text hlay
    unfold Font.text_size
    rw [hlay]
    rfl
  · intro f size text g hlast
    unfold Font.text_size
    rw [hlast]
  · refine ⟨fontC, 16, "ab", ?_⟩
    have hg : (fontC.font.layoutAt { x := 0, y := 0, max_width := none } "ab"
        16).getLast? = some glyphLast := rfl
    have hl : fontC.font.layoutAt { x := 0, y := 0, max_width := none } "ab" 16
        = [glyphTall, glyphLast] := rfl
    unfold Font.text_size
    rw [hg, hl]
    intro hcontra
    have hx := congrArg Point2.x hcontra
    norm_num [boundingExtentAllGlyphs, qmax, glyphTall, glyphLast] at hx

theorem text_size_uses_last_glyph_only_witness :
    fontE.font.layoutAt { x := 0, y := 0, max_width := none } "" 16 = [] ∧
    fontE.text_size 16 "" = ⟨0, 0⟩ ∧
    (fontC.font.layoutAt { x := 0, y := 0, max_width := none } "ab"
        16).getLast? = some glyphLast ∧
    fontC.text_size 16 "ab"
      = ⟨glyphLast.x + (glyphLast.width : ℚ),
         glyphLast.y + (glyphLast.height : ℚ)⟩ := by
  have h := text_size_uses_last_glyph_only
  exact ⟨rfl, h.1 fontE 16 "" rfl, rfl, h.2.1 fontC 16 "ab" glyphLast rfl⟩

end Webglee
